import Mathlib

/-!
Verification development for the incremental text-replacement engine of the
learn-hebrew-in-context browser extension.  The TypeScript sources in
`src/shared/utils.ts`, `src/content/content.ts` and `src/shared/database.ts`
are shallowly embedded below.  Strings are modelled as lists of Unicode code
points (`JStr`); the JavaScript case mapping is modelled on the ASCII range
(the only range the normalization can keep, since the `\W` strip removes every
non-ASCII-word character); JavaScript numbers are modelled as exact rationals;
the shared random source `Math.random()` is modelled as an indexed stream of
draws in `[0,1)`, advanced once per policy consultation.  DOM trees are
modelled in first-child / next-sibling form with explicit node identities,
mirroring object identity of DOM nodes.
-/

/-- A JavaScript string, modelled as its list of Unicode code points. -/
abbrev JStr := List Nat

/-- Convert a Lean string literal into the code-point model. -/
def str (s : String) : JStr := s.data.map Char.toNat

/-- The JavaScript whitespace class: the characters matched by the regular
expression class backslash-s and removed by `String.prototype.trim`. -/
def isJsWs (c : Nat) : Bool :=
  decide (c = 9 ∨ c = 10 ∨ c = 11 ∨ c = 12 ∨ c = 13 ∨ c = 32 ∨ c = 160 ∨
    c = 0x1680 ∨ (0x2000 ≤ c ∧ c ≤ 0x200a) ∨ c = 0x2028 ∨ c = 0x2029 ∨
    c = 0x202f ∨ c = 0x205f ∨ c = 0x3000 ∨ c = 0xfeff)

/-- The JavaScript word-character class (ASCII letters, digits and underscore),
as matched by the regular expression class backslash-w. -/
def isWordChar (c : Nat) : Bool :=
  decide ((97 ≤ c ∧ c ≤ 122) ∨ (65 ≤ c ∧ c ≤ 90) ∨ (48 ≤ c ∧ c ≤ 57) ∨ c = 95)

/-- `String.prototype.toLowerCase`, one code point at a time, on the ASCII
range; code points outside ASCII map to themselves in this model (they are
removed by the non-word-character strip before they can influence a key). -/
def jsToLower (c : Nat) : Nat :=
  if 65 ≤ c ∧ c ≤ 90 then c + 32 else c

/-- `String.prototype.trim`: drop leading and trailing JavaScript whitespace. -/
def trimChars (s : JStr) : JStr :=
  ((s.dropWhile isJsWs).reverse.dropWhile isJsWs).reverse

/-- `normalizeWord` from `src/shared/utils.ts` (lines 7-9):
`word.toLowerCase().trim().replace(/[^\w]/g, '')` — lowercase, trim, then
strip every non-word character. -/
def normalizeWord (s : JStr) : JStr :=
  (trimChars (s.map jsToLower)).filter isWordChar

/-- `VocabularyWord` from `src/shared/types.ts`.  The `difficulty` field is a
closed union in the TypeScript type, but runtime values outside the union can
reach `shouldReplaceWord`, so it is modelled as an arbitrary string.
Timestamps are modelled as natural numbers. -/
structure VocabularyWord where
  id : JStr
  english : JStr
  hebrew : JStr
  dateAdded : Nat
  lastSeen : Option Nat
  timesShown : Nat
  difficulty : String
  category : JStr
deriving DecidableEq, Repr

/-- `UserSettings` from `src/shared/types.ts`.  `replacementMode` is modelled
as an arbitrary string for the same reason as `difficulty`. -/
structure UserSettings where
  isEnabled : Bool
  replacementMode : String
  replacementPercentage : ℚ
  showTooltipDelay : ℚ
  categories : List JStr
  excludedDomains : List JStr
deriving DecidableEq, Repr

/-- The `difficultyMultiplier` object-literal lookup inside `shouldReplaceWord`
(`src/shared/utils.ts`, lines 32-36).  An unknown difficulty yields
`undefined` in JavaScript; this is modelled as `none`. -/
def difficultyMultiplier (d : String) : Option ℚ :=
  if d = "easy" then some (8/10)
  else if d = "medium" then some (5/10)
  else if d = "hard" then some (3/10)
  else none

/-- `shouldReplaceWord` from `src/shared/utils.ts` (lines 19-42).  `rand` is
the value `Math.random()` would return for this call, a draw in `[0,1)`.
In the `difficulty-based` branch with an unknown difficulty the source
computes `percentage * undefined = NaN`, and `Math.random() * 100 < NaN` is
false; the `none` branch returns false accordingly.  The function is total by
construction, matching the throw-free source. -/
def shouldReplaceWord (rand : ℚ) (word : VocabularyWord) (settings : UserSettings) : Bool :=
  if settings.isEnabled = false then false
  else if settings.replacementMode = "all" then true
  else if settings.replacementMode = "random" then
    decide (rand * 100 < settings.replacementPercentage)
  else if settings.replacementMode = "difficulty-based" then
    match difficultyMultiplier word.difficulty with
    | some m => decide (rand * 100 < settings.replacementPercentage * m)
    | none => false
  else false

/-- Substring prefix test at the current position, code point by code point. -/
def seqStartsWith : JStr → JStr → Bool
  | [], _ => true
  | _ :: _, [] => false
  | a :: as, b :: bs => decide (a = b) && seqStartsWith as bs

/-- `String.prototype.includes`: the needle occurs contiguously in the hay. -/
def containsSeq (needle : JStr) : JStr → Bool
  | [] => decide (needle = [])
  | c :: rest => seqStartsWith needle (c :: rest) || containsSeq needle rest

/-- `String.prototype.endsWith`: the needle is a suffix of the hay. -/
def seqEndsWith (needle hay : JStr) : Bool :=
  seqStartsWith needle.reverse hay.reverse

/-- One `Map.set` step of `buildVocabularyMap`: a JavaScript `Map` updates an
existing key in place (keeping its insertion position) and appends a new one. -/
def insertAssoc (m : List (JStr × VocabularyWord)) (k : JStr) (v : VocabularyWord) :
    List (JStr × VocabularyWord) :=
  if m.any (fun p => decide (p.1 = k)) then
    m.map (fun p => if p.1 = k then (k, v) else p)
  else m ++ [(k, v)]

/-- `buildVocabularyMap` from `src/content/content.ts` (lines 55-60): for each
vocabulary word, map its normalized English form to the word. -/
def buildVocabularyMap (vocab : List VocabularyWord) : List (JStr × VocabularyWord) :=
  vocab.foldl (fun m w => insertAssoc m (normalizeWord w.english) w) []

/-- `Map.prototype.get` on the vocabulary map. -/
def lookupAssoc (m : List (JStr × VocabularyWord)) (k : JStr) : Option VocabularyWord :=
  match m.find? (fun p => decide (p.1 = k)) with
  | some p => some p.2
  | none => none

/-- `textContainsVocabulary` from `src/content/content.ts` (lines 285-295):
lowercase the text, then ask whether any key of the vocabulary map occurs in
it as a plain substring.  Note that the text is only lowercased, never
stripped of punctuation, while the keys are fully normalized. -/
def textContainsVocabulary (keys : List JStr) (text : JStr) : Bool :=
  keys.any (fun k => containsSeq k (text.map jsToLower))

/-- Accumulating splitter: cut a string into maximal runs of whitespace and
non-whitespace characters.  The accumulator holds the class of the current
run and its characters in reverse. -/
def splitRunsAux : Option (Bool × JStr) → JStr → List JStr
  | none, [] => []
  | some (_, acc), [] => [acc.reverse]
  | none, c :: cs => splitRunsAux (some (isJsWs c, [c])) cs
  | some (b, acc), c :: cs =>
    if isJsWs c = b then splitRunsAux (some (b, c :: acc)) cs
    else acc.reverse :: splitRunsAux (some (isJsWs c, [c])) cs

/-- Maximal whitespace / non-whitespace runs of a string, in order. -/
def splitRuns (s : JStr) : List JStr := splitRunsAux none s

/-- `text.split(/(\s+)/)` from `processTextNode`: split on whitespace runs,
keeping the runs themselves because of the capture group.  JavaScript emits an
empty string before a leading separator and after a trailing one, and returns
a singleton list with the empty string for empty input. -/
def jsSplitWs (s : JStr) : List JStr :=
  match s with
  | [] => [[]]
  | c :: _ =>
    let runs := splitRuns s
    let runs := if isJsWs c then [] :: runs else runs
    match s.getLast? with
    | some d => if isJsWs d then runs ++ [[]] else runs
    | none => runs

/-- One item of the content sequence built by `processTextNode`: either a
literal string or the interactive marker produced by `createReplacement`,
which records the original raw word and the matched vocabulary entry while
displaying the Hebrew translation. -/
inductive ContentItem where
  | lit (s : JStr)
  | marker (original : JStr) (word : VocabularyWord)
deriving DecidableEq, Repr

/-- The environment a scan runs in: the vocabulary map, the settings and the
shared random source (an indexed stream of draws in `[0,1)`). -/
structure Env where
  vmap : List (JStr × VocabularyWord)
  settings : UserSettings
  rand : Nat → ℚ

/-- The token loop of `processTextNode` (`src/content/content.ts`, lines
256-278): whitespace tokens are kept literally; other tokens are normalized
and looked up; on a hit the policy decides between a marker and a literal.
The `Nat` component threads the index into the random stream, advanced once
per policy consultation. -/
def processTokens (env : Env) : Nat → List JStr → List ContentItem × Bool × Nat
  | k, [] => ([], false, k)
  | k, w :: ws =>
    if w.any isJsWs then
      match processTokens env k ws with
      | (items, h, kk) => (.lit w :: items, h, kk)
    else
      match lookupAssoc env.vmap (normalizeWord w) with
      | some vw =>
        if shouldReplaceWord (env.rand k) vw env.settings then
          match processTokens env (k + 1) ws with
          | (items, _, kk) => (.marker w vw :: items, true, kk)
        else
          match processTokens env (k + 1) ws with
          | (items, h, kk) => (.lit w :: items, h, kk)
      | none =>
        match processTokens env k ws with
        | (items, h, kk) => (.lit w :: items, h, kk)

/-- `processTextNode` from `src/content/content.ts` (lines 244-283) as a pure
function on the text content of a leaf: `none` means the node is left
untouched (empty or whitespace-only text, the `textContainsVocabulary`
pre-filter said no, or no token was replaced); `some items` is the content
sequence handed to `replaceTextNode`.  The `Nat` component is the advanced
random-stream index. -/
def processTextNode (env : Env) (k : Nat) (text : JStr) :
    Option (List ContentItem) × Nat :=
  if trimChars text = [] then (none, k)
  else if textContainsVocabulary (env.vmap.map Prod.fst) text = false then (none, k)
  else
    match processTokens env k (jsSplitWs text) with
    | (items, true, kk) => (some items, kk)
    | (_, false, kk) => (none, kk)

/-- A DOM forest in first-child / next-sibling form.  Every node carries a
numeric identity standing for JavaScript object identity; `nilF` ends a
sibling chain.  An element node carries its tag name and class list. -/
inductive Dom where
  | nilF
  | textN (id : Nat) (content : JStr) (next : Dom)
  | elemN (id : Nat) (tag : String) (classes : List String) (children : Dom) (next : Dom)
deriving DecidableEq, Repr

/-- The tag and class list of an element, as seen by the walker filter when it
inspects an ancestor. -/
structure ElemInfo where
  tag : String
  classes : List String
deriving DecidableEq, Repr

/-- The tag names skipped by the tree-walker filter of `processContainer`
(`src/content/content.ts`, line 193). -/
def skipTags : List String :=
  ["SCRIPT", "STYLE", "TEXTAREA", "INPUT", "CODE", "PRE", "NOSCRIPT"]

/-- The marker and overlay class names matched by the `closest` selector in
the walker filter and the mutation filter. -/
def overlaySel : List String :=
  ["hebrew-replacement", "hebrew-tooltip", "hebrew-loading-tooltip", "hebrew-temp-message"]

/-- Whether an element matches the marker / overlay selector list. -/
def hasOverlayClass (e : ElemInfo) : Bool :=
  overlaySel.any (fun c => decide (c ∈ e.classes))

/-- The `acceptNode` filter of the tree walker in `processContainer`
(`src/content/content.ts`, lines 188-210), minus the processed-set test which
is applied separately: reject when there is no parent, when the direct parent
carries one of the skipped tags, or when the parent or any ancestor matches
the marker / overlay selector (`parent.closest`).  The chain is listed
nearest-first, the direct parent at its head. -/
def acceptLeaf : List ElemInfo → Bool
  | [] => false
  | parent :: anc =>
    !(decide (parent.tag ∈ skipTags)) &&
    !(decide ("hebrew-replacement" ∈ parent.classes) || (parent :: anc).any hasOverlayClass)

/-- Enumerate the text leaves of a forest in document order, each with its
ancestor chain (nearest-first); `anc` is the chain above the forest. -/
def collectLeaves (anc : List ElemInfo) : Dom → List (Nat × List ElemInfo × JStr)
  | .nilF => []
  | .textN i s next => (i, anc, s) :: collectLeaves anc next
  | .elemN _ t c ch next =>
    collectLeaves ({ tag := t, classes := c } :: anc) ch ++ collectLeaves anc next

/-- The snapshot of text nodes collected by the walker loop of
`processContainer`: the leaves under the container that pass the `acceptNode`
filter, including its processed-set test. -/
def eligibleLeaves (anc : List ElemInfo) (pset : List Nat) (forest : Dom) :
    List (Nat × List ElemInfo × JStr) :=
  (collectLeaves anc forest).filter (fun l => acceptLeaf l.2.1 && !(decide (l.1 ∈ pset)))

/-- Concatenate two sibling chains. -/
def appendF : Dom → Dom → Dom
  | .nilF, g => g
  | .textN i s n, g => .textN i s (appendF n g)
  | .elemN i t c ch n, g => .elemN i t c ch (appendF n g)

/-- `parent.replaceChild(fragment, textNode)` from `replaceTextNode`: splice
the fragment in place of the text node with the given identity. -/
def replaceNode (tid : Nat) (repl : Dom) : Dom → Dom
  | .nilF => .nilF
  | .textN i s next =>
    if i = tid then appendF repl (replaceNode tid repl next)
    else .textN i s (replaceNode tid repl next)
  | .elemN i t c ch next =>
    .elemN i t c (replaceNode tid repl ch) (replaceNode tid repl next)

/-- `Node.textContent` of a forest: the concatenation of all text leaves. -/
def textContentF : Dom → JStr
  | .nilF => []
  | .textN _ s n => s ++ textContentF n
  | .elemN _ _ _ ch n => textContentF ch ++ textContentF n

/-- One replacement instruction, as recorded when `createReplacement` fires:
the original raw token and the matched vocabulary entry. -/
structure MatchInstruction where
  original : JStr
  word : VocabularyWord
deriving DecidableEq, Repr

/-- The instructions contained in a content sequence. -/
def instructionsOf (items : List ContentItem) : List MatchInstruction :=
  items.filterMap fun
    | .marker o w => some { original := o, word := w }
    | .lit _ => none

/-- Render a content sequence as a DOM fragment, handing out fresh node
identities from `n`: a literal becomes a text node; a marker becomes the span
built by `createReplacement` (`src/content/content.ts`, lines 304-324), whose
class is `hebrew-replacement` and whose text content is the Hebrew
translation, together with its `replacedWords` record `(markerId, original,
word)`.  Returns the fragment, the records, and the next fresh identity. -/
def renderContent : List ContentItem → Nat →
    Dom × List (Nat × JStr × VocabularyWord) × Nat
  | [], n => (.nilF, [], n)
  | .lit s :: rest, n =>
    match renderContent rest (n + 1) with
    | (f, recs, n2) => (.textN n s f, recs, n2)
  | .marker orig vw :: rest, n =>
    match renderContent rest (n + 2) with
    | (f, recs, n2) =>
      (.elemN n "SPAN" ["hebrew-replacement"] (.textN (n + 1) vw.hebrew .nilF) f,
       (n, orig, vw) :: recs, n2)

/-- The mutable state of the content script that the scanning claims are
about: the page forest (rooted at the container), the processed set
(`processedNodes`, as the set of node identities), the `replacedWords`
records, the fresh-identity supply and the random-stream index. -/
structure ScanState where
  tree : Dom
  pset : List Nat
  replacedWords : List (Nat × JStr × VocabularyWord)
  nextId : Nat
  randCtr : Nat
deriving Repr

/-- The per-leaf loop of `processContainer` over the walker snapshot
(`src/content/content.ts`, lines 220-241): each leaf not yet in the processed
set is added to it and run through `processTextNode`; when that yields a
content sequence, `replaceTextNode` splices the rendered fragment into the
tree and the marker records are registered.  The collapse of the
`requestAnimationFrame` batching is semantics-preserving in the
single-threaded model.  Also returns the emitted instructions. -/
def processLeaves (env : Env) :
    List (Nat × List ElemInfo × JStr) → ScanState → ScanState × List MatchInstruction
  | [], st => (st, [])
  | (i, _, s) :: rest, st =>
    if i ∈ st.pset then processLeaves env rest st
    else
      match (processTextNode env st.randCtr s).1 with
      | none =>
        processLeaves env rest
          { tree := st.tree, pset := i :: st.pset,
            replacedWords := st.replacedWords, nextId := st.nextId,
            randCtr := (processTextNode env st.randCtr s).2 }
      | some items =>
        let rc := renderContent items st.nextId
        let res := processLeaves env rest
          { tree := replaceNode i rc.1 st.tree, pset := i :: st.pset,
            replacedWords := st.replacedWords ++ rc.2.1, nextId := rc.2.2,
            randCtr := (processTextNode env st.randCtr s).2 }
        (res.1, instructionsOf items ++ res.2)

/-- `processContainer` from `src/content/content.ts` (lines 180-242): a
container already in the processed set is skipped outright; otherwise it is
added, the walker snapshot of eligible leaves is taken, and the leaves are
processed in document order.  `above` is the ancestor chain above the
container (the `closest` selector can look beyond the walker root).  The
state tree is rooted at the container element. -/
def processContainer (env : Env) (above : List ElemInfo) (st : ScanState) :
    ScanState × List MatchInstruction :=
  match st.tree with
  | .elemN cid tg cls ch _ =>
    if cid ∈ st.pset then (st, [])
    else
      processLeaves env
        (eligibleLeaves ({ tag := tg, classes := cls } :: above) (cid :: st.pset) ch)
        { tree := st.tree, pset := cid :: st.pset,
          replacedWords := st.replacedWords, nextId := st.nextId, randCtr := st.randCtr }
  | _ => (st, [])

/-- `processPage` from `src/content/content.ts` (lines 121-134): return
untouched unless the extension is enabled and the vocabulary map is
non-empty; otherwise reset the processed set and scan the whole body. -/
def processPage (env : Env) (above : List ElemInfo) (st : ScanState) :
    ScanState × List MatchInstruction :=
  if env.settings.isEnabled = false ∨ env.vmap.length = 0 then (st, [])
  else
    processContainer env above
      { tree := st.tree, pset := [], replacedWords := st.replacedWords,
        nextId := st.nextId, randCtr := st.randCtr }

/-- The `querySelectorAll / replaceChild` sweep of `resetReplacements`
(`src/content/content.ts`, lines 792-806): every element whose class list
holds `hebrew-replacement` is replaced by a fresh text node carrying
`element.textContent`.  Returns the new forest and the next fresh identity. -/
def resetNode (n : Nat) : Dom → Dom × Nat
  | .nilF => (.nilF, n)
  | .textN i s nx =>
    match resetNode n nx with
    | (nx2, n2) => (.textN i s nx2, n2)
  | .elemN i t c ch nx =>
    if "hebrew-replacement" ∈ c then
      match resetNode (n + 1) nx with
      | (nx2, n2) => (.textN n (textContentF ch) nx2, n2)
    else
      match resetNode n ch with
      | (ch2, n1) =>
        match resetNode n1 nx with
        | (nx2, n2) => (.elemN i t c ch2 nx2, n2)

/-- `resetReplacements` from `src/content/content.ts` (lines 792-806): sweep
the markers out of the tree, clear the `replacedWords` records and reset the
processed set (the tooltip teardown has no counterpart in this state). -/
def resetReplacements (st : ScanState) : ScanState :=
  match resetNode st.nextId st.tree with
  | (t2, n2) =>
    { tree := t2, pset := [], replacedWords := [], nextId := n2, randCtr := st.randCtr }

/-- The target of a structural mutation notification: an element together
with its ancestor chain (self first, as `closest` starts at the element), or
a non-element node. -/
inductive MutationTargetKind where
  | element (chain : List ElemInfo)
  | other
deriving DecidableEq, Repr

/-- The self-inflicted-change filter in the mutation-observer callback
(`src/content/content.ts`, lines 98-106): an element target is skipped when
its own class list holds `hebrew-replacement` or when it, or an ancestor,
matches the marker / overlay selector. -/
def isSelfInflicted : MutationTargetKind → Bool
  | .element [] => false
  | .element (self :: anc) =>
    decide ("hebrew-replacement" ∈ self.classes) || (self :: anc).any hasOverlayClass
  | .other => false

/-- The debounced body of the mutation-observer callback installed by
`setupMutationObserver` (`src/content/content.ts`, lines 86-119): nothing is
processed while a scan is running or while the extension is disabled (or the
settings are not loaded); otherwise the self-inflicted changes are filtered
out and `processMutations` receives the survivors when any remain.  `none`
means `processMutations` is not invoked, so no node is ever queued for
scanning from this batch. -/
def observerTick (settings : Option UserSettings) (isProcessing : Bool)
    (mutations : List MutationTargetKind) : Option (List MutationTargetKind) :=
  if isProcessing = true ∨ (settings.map UserSettings.isEnabled).getD false = false then none
  else
    let relevant := mutations.filter (fun m => !(isSelfInflicted m))
    if relevant.length > 0 then some relevant else none

/-- `isDomainExcluded` from `src/shared/utils.ts` (lines 60-69), parameterized
by the platform URL parser (`new URL(url).hostname`, a collaborator outside
this repository): when the parser throws (`none`), the catch branch returns
true — invalid URLs are excluded; otherwise the hostname must equal an
excluded domain or end with a dot followed by one. -/
def isDomainExcluded (parseHostname : JStr → Option JStr) (url : JStr)
    (excludedDomains : List JStr) : Bool :=
  match parseHostname url with
  | some domain =>
    excludedDomains.any (fun ex => decide (domain = ex) || seqEndsWith (46 :: ex) domain)
  | none => true

/-- The guard of `ContentScript.initialize` (`src/content/content.ts`, lines
28-38): the script loads data, installs listeners and observers and scans the
page only when the current location is not excluded (the settings are still
null at this point, so the excluded list defaults to empty only through the
caller).  `true` means processing proceeds. -/
def initializeProceeds (parseHostname : JStr → Option JStr) (url : JStr)
    (settings : Option UserSettings) : Bool :=
  !(isDomainExcluded parseHostname url ((settings.map UserSettings.excludedDomains).getD []))

/-- Modelled from the spec: the WHATWG `URL` constructor used by
`isDomainExcluded` is a platform collaborator, not code of this repository.
This concrete model parser accepts `scheme://host...` with a non-empty scheme
and host and fails (`none`) otherwise; it only instantiates the parser
parameter in witnesses. -/
def modelParseHostname (url : JStr) : Option JStr :=
  match findSchemeSep url with
  | none => none
  | some (scheme, rest) =>
    if scheme = [] then none
    else
      let host := rest.takeWhile (fun c => decide (c ≠ 47 ∧ c ≠ 58 ∧ c ≠ 63 ∧ c ≠ 35))
      if host = [] then none else some host
where
  /-- Split a string around the first occurrence of `://`. -/
  findSchemeSep : JStr → Option (JStr × JStr)
    | [] => none
    | c :: cs =>
      if c = 58 ∧ cs.take 2 = [47, 47] then some ([], cs.drop 2)
      else match findSchemeSep cs with
        | some (pre, post) => some (c :: pre, post)
        | none => none

/-- `WordOccurrence` from `src/shared/types.ts`. -/
structure WordOccurrence where
  id : JStr
  wordId : JStr
  url : JStr
  timestamp : Nat
  context : JStr
deriving DecidableEq, Repr

/-- The two IndexedDB object stores touched by `DatabaseManager.removeWord`:
`vocabulary` is keyed by `id`, `occurrences` by `id` with a secondary index
on `wordId`. -/
structure DbState where
  vocabulary : List VocabularyWord
  occurrences : List WordOccurrence
deriving DecidableEq, Repr

/-- `DatabaseManager.removeWord` from `src/shared/database.ts` (lines 85-94):
delete the vocabulary record under the key, then fetch all occurrences whose
`wordId` index equals the key and delete each of them by its own primary
key. -/
def removeWord (db : DbState) (id : JStr) : DbState :=
  let vocab2 := db.vocabulary.filter (fun w => decide (w.id ≠ id))
  let matching := db.occurrences.filter (fun o => decide (o.wordId = id))
  let occ2 := matching.foldl
    (fun cur o => cur.filter (fun p => decide (p.id ≠ o.id))) db.occurrences
  { vocabulary := vocab2, occurrences := occ2 }

/-- The vocabulary entry of the concrete scenarios in the spec:
hello mapped to its Hebrew translation, difficulty easy. -/
def helloWord : VocabularyWord :=
  { id := str "1", english := str "hello", hebrew := str "שלום", dateAdded := 0,
    lastSeen := none, timesShown := 0, difficulty := "easy", category := str "greetings" }

/-- A vocabulary entry for the word cat, used by the pre-filter analysis. -/
def catWord : VocabularyWord :=
  { id := str "2", english := str "cat", hebrew := str "חתול", dateAdded := 0,
    lastSeen := none, timesShown := 0, difficulty := "easy", category := str "animals" }

/-- Enabled settings in mode `all`. -/
def settingsAll : UserSettings :=
  { isEnabled := true, replacementMode := "all", replacementPercentage := 100,
    showTooltipDelay := 500, categories := [str "general"], excludedDomains := [] }

/-- A scan environment over the single word hello, mode `all`. -/
def envHello : Env :=
  { vmap := buildVocabularyMap [helloWord], settings := settingsAll, rand := fun _ => 0 }

/-- A scan environment over the single word cat, mode `all`. -/
def envCat : Env :=
  { vmap := buildVocabularyMap [catWord], settings := settingsAll, rand := fun _ => 0 }

/-- A body holding the single text leaf with content Hello world. -/
def stHello : ScanState :=
  { tree := .elemN 0 "BODY" [] (.textN 1 (str "Hello world") .nilF) .nilF,
    pset := [], replacedWords := [], nextId := 2, randCtr := 0 }

/-- A container in which the text leaf hello sits under a `B` element that is
itself inside a `PRE` element: the skipped tag is the grandparent of the
leaf, not its direct parent. -/
def stPre : ScanState :=
  { tree := .elemN 0 "DIV" []
      (.elemN 1 "PRE" [] (.elemN 2 "B" [] (.textN 3 (str "hello") .nilF) .nilF) .nilF)
      .nilF,
    pset := [], replacedWords := [], nextId := 4, randCtr := 0 }

theorem jsToLower_jsToLower (c : Nat) : jsToLower (jsToLower c) = jsToLower c := by
  simp only [jsToLower]
  split_ifs <;> omega

theorem isWordChar_not_ws {c : Nat} (h : isWordChar c = true) : isJsWs c = false := by
  simp only [isWordChar, decide_eq_true_eq] at h
  simp only [isJsWs, decide_eq_false_iff_not]
  omega

theorem mem_of_mem_trimChars {c : Nat} {l : JStr} (h : c ∈ trimChars l) : c ∈ l := by
  simp only [trimChars, List.mem_reverse] at h
  have h1 := (List.dropWhile_sublist isJsWs).subset h
  rw [List.mem_reverse] at h1
  exact (List.dropWhile_sublist isJsWs).subset h1

theorem map_eq_self_of_mem {l : JStr} {f : Nat → Nat} (h : ∀ c ∈ l, f c = c) :
    l.map f = l := by
  induction l with
  | nil => rfl
  | cons a l ih =>
    simp only [List.map_cons, h a (List.mem_cons_self a l)]
    rw [ih (fun c hc => h c (List.mem_cons_of_mem a hc))]

theorem dropWhile_eq_self_of_mem {l : JStr} {p : Nat → Bool}
    (h : ∀ c ∈ l, p c = false) : l.dropWhile p = l := by
  cases l with
  | nil => rfl
  | cons a l => simp [List.dropWhile_cons, h a (List.mem_cons_self a l)]

theorem trimChars_eq_self_of_mem {l : JStr} (h : ∀ c ∈ l, isJsWs c = false) :
    trimChars l = l := by
  simp only [trimChars]
  rw [dropWhile_eq_self_of_mem h]
  rw [dropWhile_eq_self_of_mem (fun c hc => h c (List.mem_reverse.mp hc))]
  exact List.reverse_reverse l

theorem mem_normalizeWord {c : Nat} {s : JStr} (h : c ∈ normalizeWord s) :
    isWordChar c = true ∧ jsToLower c = c := by
  have hw : isWordChar c = true := List.of_mem_filter h
  have hmem : c ∈ trimChars (s.map jsToLower) := List.mem_of_mem_filter h
  have hmap : c ∈ s.map jsToLower := mem_of_mem_trimChars hmem
  rcases List.mem_map.mp hmap with ⟨c0, _, hc0⟩
  exact ⟨hw, by rw [← hc0, jsToLower_jsToLower]⟩

/-- C8.  Normalization idempotence: for every string x,
`normalizeWord (normalizeWord x) = normalizeWord x`, where `normalizeWord`
lowercases, trims leading and trailing whitespace, and strips all non-word
characters (`src/shared/utils.ts`, lines 7-9).  Every character surviving one
pass is a lowered word character, which the second pass fixes pointwise. -/
theorem C8_normalizeWord_idem (x : JStr) :
    normalizeWord (normalizeWord x) = normalizeWord x := by
  have hfix : ∀ c ∈ normalizeWord x, jsToLower c = c :=
    fun c hc => (mem_normalizeWord hc).2
  have hword : ∀ c ∈ normalizeWord x, isWordChar c = true :=
    fun c hc => (mem_normalizeWord hc).1
  show (trimChars ((normalizeWord x).map jsToLower)).filter isWordChar = normalizeWord x
  rw [map_eq_self_of_mem hfix]
  rw [trimChars_eq_self_of_mem (fun c hc => isWordChar_not_ws (hword c hc))]
  exact List.filter_eq_self.mpr hword

/-- C4.  Policy boundary: with the extension enabled, mode `all` replaces
every entry regardless of its difficulty, and mode `random` with
`replacementPercentage = 0` replaces nothing for any possible draw of
`Math.random()` in `[0,1)` (`src/shared/utils.ts`, lines 19-42). -/
theorem C4_policy_boundary (w : VocabularyWord) (s : UserSettings) (r : ℚ) :
    (s.isEnabled = true → s.replacementMode = "all" → shouldReplaceWord r w s = true) ∧
    (s.replacementMode = "random" → s.replacementPercentage = 0 → 0 ≤ r →
      shouldReplaceWord r w s = false) := by
  constructor
  · intro hE hM
    simp [shouldReplaceWord, hE, hM]
  · intro hM hP hr
    by_cases hE : s.isEnabled = false
    · simp [shouldReplaceWord, hE]
    · have hlt : ¬ (r * 100 < s.replacementPercentage) := by
        rw [hP]
        nlinarith
      simp [shouldReplaceWord, hE, hM, hlt]

/-- Witness for C4 at a concrete entry, concrete settings and the concrete
draw one half. -/
theorem C4_policy_boundary_witness :
    shouldReplaceWord (1/2) helloWord settingsAll = true ∧
    shouldReplaceWord (1/2) helloWord
      { settingsAll with replacementMode := "random", replacementPercentage := 0 } = false := by
  constructor
  · exact (C4_policy_boundary helloWord settingsAll (1/2)).1 rfl rfl
  · exact (C4_policy_boundary helloWord
      { settingsAll with replacementMode := "random", replacementPercentage := 0 } (1/2)).2
      rfl rfl (by norm_num)

/-- C7.  Fail-safe policy on unknown inputs: `shouldReplaceWord` is total by
construction and returns false for every replacement mode outside
`all` / `random` / `difficulty-based` (the switch default), and in
`difficulty-based` mode for every difficulty outside `easy` / `medium` /
`hard` (the multiplier lookup yields `undefined`, the threshold is `NaN`, and
the comparison with `NaN` is false). -/
theorem C7_fail_safe_policy (r : ℚ) (w : VocabularyWord) (s : UserSettings) :
    (s.replacementMode ≠ "all" → s.replacementMode ≠ "random" →
      s.replacementMode ≠ "difficulty-based" → shouldReplaceWord r w s = false) ∧
    (s.replacementMode = "difficulty-based" → w.difficulty ≠ "easy" →
      w.difficulty ≠ "medium" → w.difficulty ≠ "hard" → shouldReplaceWord r w s = false) := by
  constructor
  · intro h1 h2 h3
    simp [shouldReplaceWord, h1, h2, h3]
  · intro hM h1 h2 h3
    have hd : difficultyMultiplier w.difficulty = none := by
      simp [difficultyMultiplier, h1, h2, h3]
    by_cases hE : s.isEnabled = false
    · simp [shouldReplaceWord, hE]
    · simp [shouldReplaceWord, hE, hM, hd]

/-- Witness for C7 at a concrete unknown mode and a concrete unknown
difficulty. -/
theorem C7_fail_safe_policy_witness :
    shouldReplaceWord (1/2) helloWord { settingsAll with replacementMode := "banana" } = false ∧
    shouldReplaceWord (1/2) { helloWord with difficulty := "weird" }
      { settingsAll with replacementMode := "difficulty-based" } = false := by
  constructor
  · exact (C7_fail_safe_policy (1/2) helloWord
      { settingsAll with replacementMode := "banana" }).1
      (by decide) (by decide) (by decide)
  · exact (C7_fail_safe_policy (1/2) { helloWord with difficulty := "weird" }
      { settingsAll with replacementMode := "difficulty-based" }).2
      rfl (by decide) (by decide) (by decide)

/-- C9.  Unparsable locations are excluded: whenever the platform URL parser
fails on a location string, the catch branch of `isDomainExcluded` returns
true for every excluded-domain list, including the empty one, so the guard of
`ContentScript.initialize` stops before any processing is set up. -/
theorem C9_unparsable_url_excluded (parseHostname : JStr → Option JStr) (url : JStr)
    (excludedDomains : List JStr) (settings : Option UserSettings)
    (h : parseHostname url = none) :
    isDomainExcluded parseHostname url excludedDomains = true ∧
    initializeProceeds parseHostname url settings = false := by
  constructor
  · simp [isDomainExcluded, h]
  · simp [initializeProceeds, isDomainExcluded, h]

/-- Witness for C9 at a concrete unparsable location under the concrete model
parser. -/
theorem C9_unparsable_url_excluded_witness :
    modelParseHostname (str "not a url") = none ∧
    isDomainExcluded modelParseHostname (str "not a url") [] = true ∧
    initializeProceeds modelParseHostname (str "not a url") none = false := by
  refine ⟨by decide, ?_, ?_⟩
  · exact (C9_unparsable_url_excluded modelParseHostname (str "not a url") [] none
      (by decide)).1
  · exact (C9_unparsable_url_excluded modelParseHostname (str "not a url") [] none
      (by decide)).2

theorem foldl_filter_by_id (ms : List WordOccurrence) (L : List WordOccurrence) :
    ms.foldl (fun cur o => cur.filter (fun p => decide (p.id ≠ o.id))) L
      = L.filter (fun p => ms.all (fun o => decide (p.id ≠ o.id))) := by
  induction ms generalizing L with
  | nil => simp
  | cons o ms ih =>
    rw [List.foldl_cons, ih, List.filter_filter]
    apply List.filter_congr
    intro p _
    rw [List.all_cons, Bool.and_comm]

/-- C10.  Frame property of `DatabaseManager.removeWord`: under the
IndexedDB key invariant that occurrence ids are pairwise distinct, removing a
word deletes exactly the vocabulary record with that id and exactly the
occurrence records whose `wordId` equals it, leaving every other record of
both stores unchanged (and in order). -/
theorem C10_removeWord_frame (db : DbState) (id : JStr)
    (h : (db.occurrences.map WordOccurrence.id).Nodup) :
    (removeWord db id).vocabulary = db.vocabulary.filter (fun w => decide (w.id ≠ id)) ∧
    (removeWord db id).occurrences = db.occurrences.filter (fun o => decide (o.wordId ≠ id)) := by
  refine ⟨rfl, ?_⟩
  show (db.occurrences.filter (fun o => decide (o.wordId = id))).foldl
      (fun cur o => cur.filter (fun p => decide (p.id ≠ o.id))) db.occurrences
    = db.occurrences.filter (fun o => decide (o.wordId ≠ id))
  rw [foldl_filter_by_id]
  apply List.filter_congr
  intro p hp
  by_cases hw : p.wordId = id
  · have hmemf : p ∈ db.occurrences.filter (fun o => decide (o.wordId = id)) :=
      List.mem_filter.mpr ⟨hp, by simp [hw]⟩
    have hall : (db.occurrences.filter (fun o => decide (o.wordId = id))).all
        (fun o => decide (p.id ≠ o.id)) = false := by
      rw [List.all_eq_false]
      exact ⟨p, hmemf, by simp⟩
    rw [hall, hw]
    simp
  · have hall : (db.occurrences.filter (fun o => decide (o.wordId = id))).all
        (fun o => decide (p.id ≠ o.id)) = true := by
      rw [List.all_eq_true]
      intro o ho
      rcases List.mem_filter.mp ho with ⟨hoL, hwid⟩
      rw [decide_eq_true_eq] at hwid
      rw [decide_eq_true_eq]
      intro hid
      have hpo : p = o := List.inj_on_of_nodup_map h hp hoL hid
      rw [hpo] at hw
      exact hw hwid
    rw [hall]
    simp [hw]

/-- Witness for C10 at a concrete store holding one record of each kind per
word. -/
theorem C10_removeWord_frame_witness :
    (removeWord
      { vocabulary := [helloWord, catWord],
        occurrences :=
          [{ id := str "o1", wordId := str "1", url := str "u", timestamp := 0, context := str "" },
           { id := str "o2", wordId := str "2", url := str "u", timestamp := 1, context := str "" }] }
      (str "1")).vocabulary = [catWord] ∧
    (removeWord
      { vocabulary := [helloWord, catWord],
        occurrences :=
          [{ id := str "o1", wordId := str "1", url := str "u", timestamp := 0, context := str "" },
           { id := str "o2", wordId := str "2", url := str "u", timestamp := 1, context := str "" }] }
      (str "1")).occurrences =
      [{ id := str "o2", wordId := str "2", url := str "u", timestamp := 1, context := str "" }] := by
  have h := C10_removeWord_frame
    { vocabulary := [helloWord, catWord],
      occurrences :=
        [{ id := str "o1", wordId := str "1", url := str "u", timestamp := 0, context := str "" },
         { id := str "o2", wordId := str "2", url := str "u", timestamp := 1, context := str "" }] }
    (str "1") (by decide)
  refine ⟨?_, ?_⟩
  · rw [h.1]; decide
  · rw [h.2]; decide

/-- C5.  Disabled invariant: with `isEnabled = false` the policy rejects
every entry for every draw, `processPage` returns without touching the page
state or emitting an instruction, and the debounced mutation-observer body
processes no mutation batch, so nothing is ever queued for scanning. -/
theorem C5_disabled_invariant (env : Env) (above : List ElemInfo) (st : ScanState)
    (isProcessing : Bool) (mutations : List MutationTargetKind)
    (h : env.settings.isEnabled = false) :
    (∀ r w, shouldReplaceWord r w env.settings = false) ∧
    processPage env above st = (st, []) ∧
    observerTick (some env.settings) isProcessing mutations = none := by
  refine ⟨fun r w => by simp [shouldReplaceWord, h], ?_, ?_⟩
  · simp [processPage, h]
  · simp [observerTick, h]

/-- Witness for C5 at concrete disabled settings, a concrete page and a
concrete mutation batch. -/
theorem C5_disabled_invariant_witness :
    shouldReplaceWord (1/2) helloWord { settingsAll with isEnabled := false } = false ∧
    processPage
      { vmap := buildVocabularyMap [helloWord],
        settings := { settingsAll with isEnabled := false }, rand := fun _ => 0 }
      [] stHello = (stHello, []) ∧
    observerTick (some { settingsAll with isEnabled := false }) false
      [.element [{ tag := "P", classes := [] }]] = none := by
  have h := C5_disabled_invariant
    { vmap := buildVocabularyMap [helloWord],
      settings := { settingsAll with isEnabled := false }, rand := fun _ => 0 }
    [] stHello false [.element [{ tag := "P", classes := [] }]] rfl
  exact ⟨h.1 (1/2) helloWord, h.2.1, h.2.2⟩

theorem processLeaves_pset_mono (env : Env) (ls : List (Nat × List ElemInfo × JStr))
    (st : ScanState) (x : Nat) :
    x ∈ st.pset → x ∈ (processLeaves env ls st).1.pset := by
  induction ls generalizing st with
  | nil => intro hx; simpa [processLeaves] using hx
  | cons l rest ih =>
    intro hx
    obtain ⟨i, anc, s⟩ := l
    simp only [processLeaves]
    split
    · exact ih st hx
    · split
      · exact ih _ (List.mem_cons_of_mem i hx)
      · simp only []
        exact ih _ (List.mem_cons_of_mem i hx)

theorem processLeaves_root (env : Env) (ls : List (Nat × List ElemInfo × JStr))
    (st : ScanState) (cid : Nat) (tg : String) (cls : List String) (ch nx : Dom) :
    st.tree = .elemN cid tg cls ch nx →
    ∃ ch2 nx2, (processLeaves env ls st).1.tree = .elemN cid tg cls ch2 nx2 := by
  induction ls generalizing st ch nx with
  | nil => intro h; exact ⟨ch, nx, by simpa [processLeaves] using h⟩
  | cons l rest ih =>
    intro h
    obtain ⟨i, anc, s⟩ := l
    simp only [processLeaves]
    split
    · exact ih st ch nx h
    · split
      · exact ih _ ch nx (by simpa using h)
      · simp only []
        exact ih _ _ _ (by rw [h]; rfl)

/-- C6.  No double-processing: a second `processContainer` pass over the
state produced by a first pass on the same container emits zero further
instructions and leaves the state exactly as it was — the container identity
entered the processed set on the first pass and the guard at the head of
`processContainer` returns immediately. -/
theorem C6_no_double_processing (env : Env) (above : List ElemInfo) (st : ScanState) :
    processContainer env above (processContainer env above st).1 =
      ((processContainer env above st).1, []) := by
  rcases htree : st.tree with _ | ⟨i, s, nx⟩ | ⟨cid, tg, cls, ch, nx⟩
  · simp [processContainer, htree]
  · simp [processContainer, htree]
  · by_cases hmem : cid ∈ st.pset
    · simp [processContainer, htree, hmem]
    · have hstep : processContainer env above st =
          processLeaves env
            (eligibleLeaves ({ tag := tg, classes := cls } :: above) (cid :: st.pset) ch)
            { tree := st.tree, pset := cid :: st.pset, replacedWords := st.replacedWords,
              nextId := st.nextId, randCtr := st.randCtr } := by
        simp [processContainer, htree, hmem]
      have hmono : cid ∈ (processContainer env above st).1.pset := by
        rw [hstep]
        exact processLeaves_pset_mono env _ _ cid (List.mem_cons_self cid st.pset)
      obtain ⟨ch2, nx2, hroot⟩ : ∃ ch2 nx2,
          (processContainer env above st).1.tree = .elemN cid tg cls ch2 nx2 := by
        rw [hstep]
        exact processLeaves_root env _ _ cid tg cls ch nx htree
      generalize hg : processContainer env above st = R at hmono hroot ⊢
      obtain ⟨st1, ins1⟩ := R
      simp only [] at hmono hroot ⊢
      simp [processContainer, hroot, hmono]

/-- C1.  Evaluation of the code at the failing input for the round-trip
claim: scanning the body whose single leaf is Hello world (vocabulary hello,
mode `all`) registers the record with original Hello, but `resetReplacements`
rebuilds the leaf from `element.textContent` — the displayed Hebrew
translation — so the page text after reset is the translation followed by
world, not the recorded pre-replacement string. -/
theorem C1_reset_restores_translation_not_original :
    (processContainer envHello [] stHello).1.replacedWords = [(2, str "Hello", helloWord)] ∧
    textContentF (resetReplacements (processContainer envHello [] stHello).1).tree =
      str "שלום world" ∧
    str "שלום world" ≠ str "Hello world" := by
  refine ⟨by decide, by decide, by decide⟩

/-- C2.  Evaluation of the code at the failing input for the pre-filter
claim: the text ca-t consists of the single whitespace-delimited token ca-t,
whose normalization cat is a key of the index built from the vocabulary word
cat; the token loop would replace it (mode `all`), yet `textContainsVocabulary`
returns false — the lowercased text does not contain cat as a substring — so
`processTextNode` skips the leaf entirely. -/
theorem C2_prefilter_false_negative :
    jsSplitWs (str "ca-t") = [str "ca-t"] ∧
    normalizeWord (str "ca-t") = str "cat" ∧
    lookupAssoc envCat.vmap (str "cat") = some catWord ∧
    textContainsVocabulary (envCat.vmap.map Prod.fst) (str "ca-t") = false ∧
    (processTextNode envCat 0 (str "ca-t")).1 = none ∧
    (processTokens envCat 0 (jsSplitWs (str "ca-t"))).2.1 = true := by
  refine ⟨by decide, by decide, by decide, by decide, by decide, by decide⟩

/-- C3 (counterexample).  A text leaf whose ancestor chain contains a `PRE`
element, but whose direct parent is a plain `B` element, is enumerated,
tokenized and replaced by `processContainer`: the claim that the skipped-tag
filter applies anywhere up the chain is false on the code. -/
theorem C3_counterexample :
    (processContainer envHello [] stPre).2 = [{ original := str "hello", word := helloWord }] ∧
    textContentF (processContainer envHello [] stPre).1.tree = str "שלום" := by
  refine ⟨by decide, by decide⟩

/-- C3 (amended).  The walker filter of `processContainer` rejects a leaf by
tag only through its direct parent, while the marker / overlay exclusion
(`parent.closest`) applies to the whole ancestor chain: every enumerated leaf
has a direct parent whose tag is outside the skip list, no marker or overlay
element anywhere in its chain, and is not yet in the processed set.  In
particular the text inside a script element — whose direct parent is the
script element itself — is never enumerated. -/
theorem C3_direct_parent_filter (anc above : List ElemInfo) (pset : List Nat)
    (forest : Dom) (i : Nat) (s : JStr)
    (hmem : (i, anc, s) ∈ eligibleLeaves above pset forest) :
    (∀ p, anc.head? = some p → p.tag ∉ skipTags ∧ "hebrew-replacement" ∉ p.classes) ∧
    (∀ e ∈ anc, hasOverlayClass e = false) ∧ i ∉ pset := by
  have hfil := (List.mem_filter.mp hmem).2
  simp only [Bool.and_eq_true, Bool.not_eq_true', decide_eq_false_iff_not] at hfil
  obtain ⟨hacc, hpset⟩ := hfil
  rcases anc with _ | ⟨parent, rest⟩
  · simp [acceptLeaf] at hacc
  · simp only [acceptLeaf, Bool.and_eq_true, Bool.not_eq_true', Bool.or_eq_false_iff,
      decide_eq_false_iff_not, List.any_eq_false] at hacc
    have htag := hacc.1
    have hcls := hacc.2.1
    have hov := hacc.2.2
    refine ⟨?_, ?_, hpset⟩
    · intro p hp
      rw [List.head?_cons, Option.some_inj] at hp
      exact ⟨hp ▸ htag, hp ▸ hcls⟩
    · intro e he
      exact Bool.eq_false_iff.mpr (hov e he)

/-- Witness for C3 (amended): a concrete enumerated leaf under a plain
paragraph parent. -/
theorem C3_direct_parent_filter_witness :
    ((11, [{ tag := "P", classes := [] }, { tag := "BODY", classes := [] }], str "hi") ∈
      eligibleLeaves [{ tag := "BODY", classes := [] }] [0]
        (.elemN 10 "P" [] (.textN 11 (str "hi") .nilF) .nilF)) ∧
    (∀ p, List.head? [ElemInfo.mk "P" [], ElemInfo.mk "BODY" []] = some p →
      p.tag ∉ skipTags ∧ "hebrew-replacement" ∉ p.classes) := by
  constructor
  · decide
  · exact (C3_direct_parent_filter [ElemInfo.mk "P" [], ElemInfo.mk "BODY" []]
      [ElemInfo.mk "BODY" []] [0] (.elemN 10 "P" [] (.textN 11 (str "hi") .nilF) .nilF)
      11 (str "hi") (by decide)).1
